import Mathlib

/-!
Verification of `src/mylib/mylib.c` (`mylib_hello`):

```c
void mylib_hello() {
    #pragma omp parallel
    {
        int tid = omp_get_thread_num();
        printf("[mylib] Hello from thread %d\n", tid);
    }
}
```

The function opens an OpenMP parallel region.  The runtime creates a team of
`wc` workers (thread numbers 0 .. wc-1, the encountering thread participating
as thread 0, so `wc ≥ 1`); each worker prints one line and the region ends
with an implicit barrier, after which the call returns.

We embed one call as a small-step transition system.  A state records the set
of workers that have not yet executed their `printf`, the sequence of thread
indices printed so far (standard output is the list of rendered lines, in
print order), an opaque component `other : σ` standing for every other piece
of observable world state (files, network, environment ...), and whether the
call has returned to the caller.  The nondeterministic interleaving of the
workers is the choice of which pending worker steps next.
-/

namespace Mylib

/-- Character for a single decimal digit `n < 10`, as produced by `printf`. -/
def digitChar (n : Nat) : Char := Char.ofNat (48 + n)

/-- Decimal digit string of `n`, most significant digit first: the rendering
`printf "%d"` performs for a non-negative `int`. -/
def decDigits (n : Nat) : List Char :=
  if h : n < 10 then [digitChar n]
  else decDigits (n / 10) ++ [digitChar (n % 10)]
termination_by n
decreasing_by exact Nat.div_lt_self (by omega) (by omega)

/-- Decimal rendering of `n` as a string (`printf "%d"` on a value `≥ 0`). -/
def decRepr (n : Nat) : String := ⟨decDigits n⟩

/-- The fixed text preceding the index in the `printf` format string. -/
def helloMsg : String := "[mylib] Hello from thread "

/-- The full line worker `tid` writes:
`printf("[mylib] Hello from thread %d\n", tid)`. -/
def renderLine (tid : Nat) : String := helloMsg ++ decRepr tid ++ "\n"

/-- State of one call to `mylib_hello`, relative to an opaque type `σ` of all
observable world state other than standard output. -/
structure MState (σ : Type) where
  /-- workers of the team that have not yet executed their `printf` -/
  pending : Finset Nat
  /-- thread indices printed so far, in the order the lines were written -/
  output : List Nat
  /-- every other piece of observable world state -/
  other : σ
  /-- whether the call has returned to the caller -/
  returned : Bool

/-- Small-step relation for one call to `mylib_hello`: a pending worker
executes its `printf`, or — once every worker has reached the implicit
barrier ending the parallel region — the call returns. -/
inductive Step {σ : Type} : MState σ → MState σ → Prop
  | print (s : MState σ) (tid : Nat) (hmem : tid ∈ s.pending)
      (hret : s.returned = false) :
      Step s ⟨s.pending.erase tid, s.output ++ [tid], s.other, false⟩
  | ret (s : MState σ) (hempty : s.pending = ∅) (hret : s.returned = false) :
      Step s ⟨∅, s.output, s.other, true⟩

/-- Zero or more steps. -/
def Reaches {σ : Type} : MState σ → MState σ → Prop :=
  Relation.ReflTransGen Step

/-- State at entry to the parallel region: the runtime has built a team of
`wc` workers with thread numbers `0 .. wc-1`, nothing printed yet. -/
def startState (wc : Nat) {σ : Type} (o : σ) : MState σ :=
  ⟨Finset.range wc, [], o, false⟩

/-- A completed call to `mylib_hello`: starting from a team of `wc` workers
and world state `o`, the system reached a state where the call has returned.
The OpenMP runtime guarantees `1 ≤ wc` (the encountering thread is always
part of the team, as thread 0); theorems that need this take it as a
hypothesis. -/
def mylib_hello (wc : Nat) {σ : Type} (o : σ) (s : MState σ) : Prop :=
  Reaches (startState wc o) s ∧ s.returned = true

/-- The lines on standard output in state `s`, in the order written. -/
def stdoutOf {σ : Type} (s : MState σ) : List String :=
  s.output.map renderLine

/-- Thread indices `wc-1, wc-2, ..., 0`: the output order of one particular
schedule, used to exhibit concrete runs. -/
def decList : Nat → List Nat
  | 0 => []
  | k + 1 => k :: decList k

/-! ### Basic lemmas about the transition system -/

/-- The invariant a call to `mylib_hello` maintains: the printed indices and
the pending workers together are exactly the team `{0, ..., wc-1}` (as a
multiset), the rest of the world holds its initial value `o`, and a returned
state has no pending worker. -/
def Inv {σ : Type} (wc : Nat) (o : σ) (s : MState σ) : Prop :=
  (Multiset.ofList s.output + s.pending.val = Multiset.range wc)
    ∧ s.other = o ∧ (s.returned = true → s.pending = ∅)

/-- Every step preserves the invariant. -/
lemma step_inv {σ : Type} {wc : Nat} {o : σ} {s₁ s₂ : MState σ}
    (hst : Step s₁ s₂) (h : Inv wc o s₁) : Inv wc o s₂ := by
  obtain ⟨hmul, hoth, _⟩ := h
  cases hst with
  | print tid hmem hret =>
    refine ⟨?_, hoth, ?_⟩
    · show Multiset.ofList (s₁.output ++ [tid]) + (s₁.pending.erase tid).val
          = Multiset.range wc
      rw [Finset.erase_val]
      calc Multiset.ofList (s₁.output ++ [tid]) + s₁.pending.val.erase tid
          = Multiset.ofList s₁.output + ({tid} + s₁.pending.val.erase tid) := by
            rw [← Multiset.coe_add, Multiset.coe_singleton, add_assoc]
        _ = Multiset.ofList s₁.output + s₁.pending.val := by
            rw [Multiset.singleton_add,
              Multiset.cons_erase (Finset.mem_def.mp hmem)]
        _ = Multiset.range wc := hmul
    · intro hc; cases hc
  | ret hempty hret =>
    refine ⟨?_, hoth, fun _ => rfl⟩
    show Multiset.ofList s₁.output + (∅ : Finset Nat).val = Multiset.range wc
    rw [hempty] at hmul
    simpa using hmul

/-- The invariant holds in every state reachable during a call. -/
lemma reaches_inv {σ : Type} (wc : Nat) (o : σ) (s : MState σ)
    (h : Reaches (startState wc o) s) : Inv wc o s := by
  induction h with
  | refl =>
    refine ⟨?_, rfl, ?_⟩
    · simp [startState, Finset.range_val]
    · intro hc; cases hc
  | tail _ hbc ih => exact step_inv hbc ih

/-- A completed call has printed a permutation of `0, ..., wc-1`. -/
lemma mylib_hello_perm {σ : Type} {wc : Nat} {o : σ} {s : MState σ}
    (h : mylib_hello wc o s) : List.Perm s.output (List.range wc) := by
  obtain ⟨hr, hret⟩ := h
  obtain ⟨hmul, _, hp⟩ := reaches_inv wc o s hr
  rw [hp hret] at hmul
  simp only [Finset.empty_val, add_zero] at hmul
  exact Multiset.coe_eq_coe.mp hmul

/-- A completed call has no pending worker. -/
lemma mylib_hello_pending {σ : Type} {wc : Nat} {o : σ} {s : MState σ}
    (h : mylib_hello wc o s) : s.pending = ∅ := by
  obtain ⟨hr, hret⟩ := h
  exact (reaches_inv wc o s hr).2.2 hret

/-- From a team of `k` still entirely pending, the schedule that prints the
workers in decreasing index order drains the team. -/
lemma reaches_drain {σ : Type} (o : σ) :
    ∀ (k : Nat) (out : List Nat),
      Reaches (⟨Finset.range k, out, o, false⟩ : MState σ)
        ⟨∅, out ++ decList k, o, false⟩ := by
  intro k
  induction k with
  | zero =>
    intro out
    simpa [decList, Finset.range_zero] using
      (Relation.ReflTransGen.refl :
        Reaches (⟨∅, out, o, false⟩ : MState σ) ⟨∅, out, o, false⟩)
  | succ k ih =>
    intro out
    refine Relation.ReflTransGen.head
      (Step.print ⟨Finset.range (k + 1), out, o, false⟩ k
        (by simp) rfl) ?_
    have herase : (Finset.range (k + 1)).erase k = Finset.range k := by
      rw [Finset.range_succ, Finset.erase_insert (by simp)]
    simp only [herase]
    have := ih (out ++ [k])
    simpa [decList, List.append_assoc] using this

/-- Concrete completed run: any team size `wc`, any world state, printing in
decreasing index order. -/
lemma mylib_hello_desc {σ : Type} (o : σ) (wc : Nat) :
    mylib_hello wc o ⟨∅, decList wc, o, true⟩ := by
  refine ⟨?_, rfl⟩
  have h1 : Reaches (startState wc o) (⟨∅, decList wc, o, false⟩ : MState σ) := by
    simpa [startState] using reaches_drain o wc []
  exact Relation.ReflTransGen.tail h1
    (Step.ret ⟨∅, decList wc, o, false⟩ rfl rfl)

/-- Explicit run printing `0, 1` in ascending order with team size 2: a
second schedule of the same call, distinct from `mylib_hello_desc`. -/
lemma runUp2 : mylib_hello 2 () (⟨∅, [0, 1], (), true⟩ : MState Unit) := by
  refine ⟨?_, rfl⟩
  refine Relation.ReflTransGen.head
    (Step.print (startState 2 ()) 0 (by decide) rfl) ?_
  refine Relation.ReflTransGen.head (Step.print _ 1 (by decide) rfl) ?_
  refine Relation.ReflTransGen.head (Step.ret _ (by decide) rfl) ?_
  exact Relation.ReflTransGen.refl

/-- Canonical completed state over a trivial world, for concrete instances. -/
def doneState (wc : Nat) : MState Unit := ⟨∅, decList wc, (), true⟩

/-- The canonical completed state is a completed run. -/
lemma runDone (wc : Nat) : mylib_hello wc () (doneState wc) :=
  mylib_hello_desc () wc

/-! ### Lemmas about the rendered text -/

/-- Every character `decDigits` emits is a digit character. -/
lemma decDigits_digits (n : Nat) :
    ∀ c ∈ decDigits n, ∃ d, d < 10 ∧ c = digitChar d := by
  induction n using Nat.strong_induction_on with
  | _ n ih =>
    rw [decDigits]
    split
    · next hlt =>
        intro c hc
        simp only [List.mem_singleton] at hc
        exact ⟨n, hlt, hc⟩
    · next hge =>
        intro c hc
        rcases List.mem_append.mp hc with hc | hc
        · exact ih (n / 10) (Nat.div_lt_self (by omega) (by omega)) c hc
        · simp only [List.mem_singleton] at hc
          exact ⟨n % 10, Nat.mod_lt _ (by omega), hc⟩

/-- A digit character is a decimal digit in the `Char.isDigit` sense. -/
lemma digitChar_isDigit {d : Nat} (h : d < 10) :
    (digitChar d).isDigit = true := by
  interval_cases d <;> decide

/-- A digit character is never a newline. -/
lemma digitChar_ne_newline {d : Nat} (h : d < 10) :
    digitChar d ≠ '\n' := by
  interval_cases d <;> decide

/-- Every character of the decimal rendering of `n` is a digit. -/
lemma decRepr_digits (n : Nat) :
    ∀ c ∈ (decRepr n).data, c.isDigit = true := by
  intro c hc
  obtain ⟨d, hd, rfl⟩ := decDigits_digits n c hc
  exact digitChar_isDigit hd

/-- Character-level decomposition of a rendered line. -/
lemma renderLine_data (tid : Nat) :
    (renderLine tid).data = (helloMsg.data ++ decDigits tid) ++ ['\n'] :=
  rfl

/-! ### The claims -/

/-- C1: with the runtime providing `wc` workers, the multiset of thread
indices printed across one call to `mylib_hello` equals exactly
`{0, 1, ..., wc-1}`, with no duplicates and no omissions, and consequently
the number of lines printed equals `wc`. -/
theorem mylib_hello_indices_complete {σ : Type} (wc : Nat) (o : σ)
    (s : MState σ) (h : mylib_hello wc o s) :
    Multiset.ofList s.output = Multiset.range wc
      ∧ s.output.Nodup ∧ (stdoutOf s).length = wc := by
  have hperm := mylib_hello_perm h
  refine ⟨Multiset.coe_eq_coe.mpr hperm, ?_, ?_⟩
  · exact hperm.nodup_iff.mpr (List.nodup_range wc)
  · simp [stdoutOf, hperm.length_eq]

/-- C2: every line printed by `mylib_hello` matches the pattern
`[mylib] Hello from thread <N>` where `<N>` is a non-negative integer
rendered in decimal (every character of it is a decimal digit) lying in
`[0, wc)`. -/
theorem mylib_hello_line_format {σ : Type} (wc : Nat) (o : σ)
    (s : MState σ) (h : mylib_hello wc o s) :
    ∀ line ∈ stdoutOf s, ∃ n, n < wc
      ∧ line = helloMsg ++ decRepr n ++ "\n"
      ∧ ∀ c ∈ (decRepr n).data, c.isDigit = true := by
  intro line hline
  simp only [stdoutOf, List.mem_map] at hline
  obtain ⟨tid, htid, rfl⟩ := hline
  have hlt : tid < wc :=
    List.mem_range.mp ((mylib_hello_perm h).mem_iff.mp htid)
  exact ⟨tid, hlt, rfl, decRepr_digits tid⟩

/-- C3: `mylib_hello` returns only after every spawned worker has finished
printing (the implicit barrier of the parallel region): in a returned state
no worker is pending, the output is already complete, and no further step —
in particular no further print — is possible. -/
theorem mylib_hello_joins_before_return {σ : Type} (wc : Nat) (o : σ)
    (s : MState σ) (h : mylib_hello wc o s) :
    s.pending = ∅ ∧ Multiset.ofList s.output = Multiset.range wc
      ∧ ∀ s', ¬ Step s s' := by
  refine ⟨mylib_hello_pending h,
    Multiset.coe_eq_coe.mpr (mylib_hello_perm h), ?_⟩
  intro s' hst
  have hret : s.returned = false := by
    cases hst with
    | print tid hmem hr => exact hr
    | ret he hr => exact hr
  rw [h.2] at hret
  exact Bool.noConfusion hret

/-- C4: with the runtime configured for exactly 1 worker, a call prints
exactly one line, and that line is `[mylib] Hello from thread 0`
(with its terminating newline). -/
theorem mylib_hello_one_worker {σ : Type} (o : σ) (s : MState σ)
    (h : mylib_hello 1 o s) :
    stdoutOf s = ["[mylib] Hello from thread 0\n"] := by
  have hout : s.output = [0] :=
    List.perm_singleton.mp (mylib_hello_perm h)
  have hline : renderLine 0 = "[mylib] Hello from thread 0\n" := by
    rw [renderLine, decRepr, decDigits]
    rfl
  simp [stdoutOf, hout, hline]

/-- C5: with the runtime configured for exactly 4 workers, a call prints
exactly 4 lines whose printed indices, sorted ascending, are `0, 1, 2, 3`
(the print order itself may be any permutation). -/
theorem mylib_hello_four_workers {σ : Type} (o : σ) (s : MState σ)
    (h : mylib_hello 4 o s) :
    (stdoutOf s).length = 4
      ∧ List.Perm s.output [0, 1, 2, 3]
      ∧ ∀ t : List Nat, List.Perm t s.output →
          t.Sorted (· ≤ ·) → t = [0, 1, 2, 3] := by
  have hperm : List.Perm s.output [0, 1, 2, 3] := mylib_hello_perm h
  refine ⟨by simp [stdoutOf, hperm.length_eq], hperm, ?_⟩
  intro t hper hsort
  exact List.eq_of_perm_of_sorted (hper.trans hperm) hsort (by decide)

/-- C6: `mylib_hello` is stateless and re-entrant: the multiset of lines a
call produces depends only on the worker count, not on the world state the
call starts from nor on any history, so any two completed calls with the
same worker count produce the same multiset of lines. -/
theorem mylib_hello_stateless {σ₁ σ₂ : Type} (wc : Nat) (o₁ : σ₁) (o₂ : σ₂)
    (s₁ : MState σ₁) (s₂ : MState σ₂)
    (h₁ : mylib_hello wc o₁ s₁) (h₂ : mylib_hello wc o₂ s₂) :
    Multiset.ofList (stdoutOf s₁) = Multiset.ofList (stdoutOf s₂) := by
  have p₁ := (mylib_hello_perm h₁).map renderLine
  have p₂ := (mylib_hello_perm h₂).map renderLine
  simpa [stdoutOf] using Multiset.coe_eq_coe.mpr (p₁.trans p₂.symm)

/-- C7: `mylib_hello` defines no error conditions and handles none: the
embedded transition system has no error outcome, every state in which the
call has not yet returned can take a step (no stuck or failing state exists
in this component), and for every team size and world state the call can
run to completion. -/
theorem mylib_hello_no_error {σ : Type} (wc : Nat) (o : σ) :
    (∀ s : MState σ, s.returned = false → ∃ s', Step s s')
      ∧ ∃ s : MState σ, mylib_hello wc o s := by
  constructor
  · intro s hret
    by_cases hp : s.pending = ∅
    · exact ⟨_, Step.ret s hp hret⟩
    · obtain ⟨tid, htid⟩ := Finset.nonempty_iff_ne_empty.mpr hp
      exact ⟨_, Step.print s tid htid hret⟩
  · exact ⟨_, mylib_hello_desc o wc⟩

/-- C8: the only mutable resource `mylib_hello` writes is standard output:
across any steps of a call, the opaque rest of the world (files, network,
persisted state, environment variables, ...) is unchanged, and standard
output is only appended to. -/
theorem mylib_hello_frame {σ : Type} (s₁ s₂ : MState σ)
    (h : Reaches s₁ s₂) :
    s₂.other = s₁.other ∧ ∃ tids, s₂.output = s₁.output ++ tids := by
  induction h with
  | refl => exact ⟨rfl, [], by simp⟩
  | tail _ hbc ih =>
    obtain ⟨ho, tids, hout⟩ := ih
    cases hbc with
    | print tid hmem hret => exact ⟨ho, tids ++ [tid], by simp [hout]⟩
    | ret he hr => exact ⟨ho, tids, hout⟩

/-- C9: every line printed during a call to `mylib_hello` is terminated by
exactly one newline character: the line contains a single `\n`, and it is
the last character. -/
theorem mylib_hello_newline_terminated {σ : Type} (wc : Nat) (o : σ)
    (s : MState σ) (h : Reaches (startState wc o) s) :
    ∀ line ∈ stdoutOf s,
      line.data.count '\n' = 1 ∧ line.data.getLast? = some '\n' := by
  intro line hline
  simp only [stdoutOf, List.mem_map] at hline
  obtain ⟨tid, _, rfl⟩ := hline
  rw [renderLine_data]
  constructor
  · rw [List.count_append, List.count_append]
    have hmsg : helloMsg.data.count '\n' = 0 := by decide
    have hdig : (decDigits tid).count '\n' = 0 := by
      rw [List.count_eq_zero]
      intro hmem
      obtain ⟨d, hd, hcd⟩ := decDigits_digits tid '\n' hmem
      exact digitChar_ne_newline hd hcd.symm
    simp [hmsg, hdig]
  · exact List.getLast?_concat _

/-- C10: a call always prints at least one line, among them the line of
thread 0: under OpenMP the encountering thread itself joins the team as
thread 0, so the team size satisfies `1 ≤ wc` even if the runtime creates
no additional workers. -/
theorem mylib_hello_master_thread {σ : Type} (wc : Nat) (o : σ)
    (s : MState σ) (hwc : 1 ≤ wc) (h : mylib_hello wc o s) :
    stdoutOf s ≠ [] ∧ renderLine 0 ∈ stdoutOf s := by
  have h0 : 0 ∈ s.output :=
    (mylib_hello_perm h).mem_iff.mpr (List.mem_range.mpr hwc)
  constructor
  · intro hnil
    rw [stdoutOf, List.map_eq_nil_iff] at hnil
    rw [hnil] at h0
    exact List.not_mem_nil 0 h0
  · exact List.mem_map_of_mem renderLine h0

/-! ### Witnesses: the theorems applied at concrete runs -/

/-- C1 at a concrete completed run with 3 workers. -/
theorem mylib_hello_indices_complete_witness :
    Multiset.ofList (doneState 3).output = Multiset.range 3
      ∧ (doneState 3).output.Nodup ∧ (stdoutOf (doneState 3)).length = 3 :=
  mylib_hello_indices_complete 3 () (doneState 3) (runDone 3)

/-- C2 at a concrete line of a concrete completed run with 2 workers. -/
theorem mylib_hello_line_format_witness :
    ∃ n, n < 2 ∧ renderLine 1 = helloMsg ++ decRepr n ++ "\n"
      ∧ ∀ c ∈ (decRepr n).data, c.isDigit = true :=
  mylib_hello_line_format 2 () (doneState 2) (runDone 2) (renderLine 1)
    (by simp [stdoutOf, doneState, decList])

/-- C3 at a concrete completed run with 2 workers. -/
theorem mylib_hello_joins_before_return_witness :
    (doneState 2).pending = ∅
      ∧ Multiset.ofList (doneState 2).output = Multiset.range 2
      ∧ ∀ s', ¬ Step (doneState 2) s' :=
  mylib_hello_joins_before_return 2 () (doneState 2) (runDone 2)

/-- C4 at a concrete completed run with 1 worker. -/
theorem mylib_hello_one_worker_witness :
    stdoutOf (doneState 1) = ["[mylib] Hello from thread 0\n"] :=
  mylib_hello_one_worker () (doneState 1) (runDone 1)

/-- C5 at a concrete completed run with 4 workers. -/
theorem mylib_hello_four_workers_witness :
    (stdoutOf (doneState 4)).length = 4
      ∧ List.Perm (doneState 4).output [0, 1, 2, 3]
      ∧ ∀ t : List Nat, List.Perm t (doneState 4).output →
          t.Sorted (· ≤ ·) → t = [0, 1, 2, 3] :=
  mylib_hello_four_workers () (doneState 4) (runDone 4)

/-- C6 at two concrete completed runs with 2 workers that print in opposite
orders. -/
theorem mylib_hello_stateless_witness :
    Multiset.ofList (stdoutOf (doneState 2))
      = Multiset.ofList (stdoutOf (⟨∅, [0, 1], (), true⟩ : MState Unit)) :=
  mylib_hello_stateless 2 () () (doneState 2) ⟨∅, [0, 1], (), true⟩
    (runDone 2) runUp2

/-- C8 at the concrete run with 2 workers, from the start state. -/
theorem mylib_hello_frame_witness :
    (doneState 2).other = (startState 2 ()).other
      ∧ ∃ tids, (doneState 2).output = (startState 2 ()).output ++ tids :=
  mylib_hello_frame (startState 2 ()) (doneState 2) (runDone 2).1

/-- C9 at the concrete line of the run with 1 worker. -/
theorem mylib_hello_newline_terminated_witness :
    (renderLine 0).data.count '\n' = 1
      ∧ (renderLine 0).data.getLast? = some '\n' :=
  mylib_hello_newline_terminated 1 () (doneState 1) (runDone 1).1
    (renderLine 0) (by simp [stdoutOf, doneState, decList])

/-- C10 at a concrete completed run with 1 worker. -/
theorem mylib_hello_master_thread_witness :
    stdoutOf (doneState 1) ≠ [] ∧ renderLine 0 ∈ stdoutOf (doneState 1) :=
  mylib_hello_master_thread 1 () (doneState 1) (by decide) (runDone 1)

end Mylib
